import Mathlib

/-!
Verification development for the phase-portrait repository
(`src/phase_portrait.py`).  The computational core of the script is:

* a numeric scope `local_scope` mapping the names
  sin, cos, tan, exp, sqrt, pi, x, y to numpy values (lines 36-40);
* evaluation of the two user expressions with Python `eval` over that
  scope, in array mode over a meshgrid (lines 31-33, 44-45) and in
  scalar mode inside `system_func` during integration (lines 48-54);
* a call to the external solver `scipy.integrate.odeint` over
  `np.linspace(0, t_max, frames)` (lines 56-57);
* construction of the animation frame list (lines 81-95).

The embedding models numpy double values as exact rationals extended
with infinities and NaN, Python dicts as association lists (with an
explicit store where mutation matters), the expression language as an
AST covering the constructs the claims exercise, and the external ODE
solver as a black box producing one state per requested time.
-/

namespace PhasePortrait

/-- Model of an IEEE-754 double as produced by numpy arithmetic: an
exact finite value (represented by a rational), one of the two
infinities, or NaN.  Signed zero is not distinguished; no claim
depends on it. -/
inductive EF
  | fin : ℚ → EF
  | pinf : EF
  | ninf : EF
  | nan : EF
  deriving DecidableEq

/-- IEEE negation. -/
def EF.neg : EF → EF
  | .fin q => .fin (-q)
  | .pinf => .ninf
  | .ninf => .pinf
  | .nan => .nan

/-- IEEE addition as performed by numpy float64: NaN is absorbing,
opposite infinities give NaN. -/
def EF.add : EF → EF → EF
  | .nan, _ => .nan
  | _, .nan => .nan
  | .fin a, .fin b => .fin (a + b)
  | .pinf, .ninf => .nan
  | .ninf, .pinf => .nan
  | .pinf, _ => .pinf
  | _, .pinf => .pinf
  | .ninf, _ => .ninf
  | _, .ninf => .ninf

/-- IEEE subtraction, defined as addition of the negation. -/
def EF.sub (a b : EF) : EF := EF.add a (EF.neg b)

/-- IEEE multiplication: NaN absorbing, infinity times zero is NaN,
signs propagate. -/
def EF.mul : EF → EF → EF
  | .nan, _ => .nan
  | _, .nan => .nan
  | .fin a, .fin b => .fin (a * b)
  | .pinf, .fin b => if b = 0 then .nan else if 0 < b then .pinf else .ninf
  | .fin a, .pinf => if a = 0 then .nan else if 0 < a then .pinf else .ninf
  | .ninf, .fin b => if b = 0 then .nan else if 0 < b then .ninf else .pinf
  | .fin a, .ninf => if a = 0 then .nan else if 0 < a then .ninf else .pinf
  | .pinf, .pinf => .pinf
  | .ninf, .ninf => .pinf
  | .pinf, .ninf => .ninf
  | .ninf, .pinf => .ninf

/-- IEEE division as performed by numpy float64: division of a nonzero
finite value by zero yields a signed infinity, 0/0 yields NaN, and no
exception is ever produced (numpy emits a RuntimeWarning, which is not
an exception). -/
def EF.div : EF → EF → EF
  | .nan, _ => .nan
  | _, .nan => .nan
  | .fin a, .fin b =>
      if b = 0 then (if a = 0 then .nan else if 0 < a then .pinf else .ninf)
      else .fin (a / b)
  | .fin _, .pinf => .fin 0
  | .fin _, .ninf => .fin 0
  | .pinf, .fin b => if 0 ≤ b then .pinf else .ninf
  | .ninf, .fin b => if 0 ≤ b then .ninf else .pinf
  | .pinf, .pinf => .nan
  | .pinf, .ninf => .nan
  | .ninf, .pinf => .nan
  | .ninf, .ninf => .nan

/-- The finite parts of the transcendental functions are not exactly
representable; the evaluator is parametric in rational-valued models
of them.  No claim depends on their values, only on the IEEE special
cases handled in `applyUF`. -/
structure MathFns where
  sinQ : ℚ → ℚ
  cosQ : ℚ → ℚ
  tanQ : ℚ → ℚ
  expQ : ℚ → ℚ
  sqrtQ : ℚ → ℚ

/-- A trivial instantiation of `MathFns`, used for concrete runs. -/
def fns0 : MathFns := ⟨fun _ => 0, fun _ => 0, fun _ => 0, fun _ => 0, fun _ => 0⟩

/-- Tags for the five numpy ufuncs placed in the evaluation scope.
The source scope (lines 36-40) contains exactly these functions; in
particular `log` is absent. -/
inductive UF
  | sin | cos | tan | exp | sqrt
  deriving DecidableEq

/-- A two-dimensional numpy array: a list of rows. -/
abbrev Mat := List (List EF)

/-- Applying a numpy ufunc to one float64, with the IEEE special
cases: sqrt of a negative is NaN (numpy warns, does not raise),
sqrt(inf)=inf, sin/cos/tan of an infinity is NaN, exp(-inf)=0,
exp(inf)=inf, and NaN propagates. -/
def applyUF (fns : MathFns) : UF → EF → EF
  | .sin, .fin q => .fin (fns.sinQ q)
  | .sin, _ => .nan
  | .cos, .fin q => .fin (fns.cosQ q)
  | .cos, _ => .nan
  | .tan, .fin q => .fin (fns.tanQ q)
  | .tan, _ => .nan
  | .exp, .fin q => .fin (fns.expQ q)
  | .exp, .pinf => .pinf
  | .exp, .ninf => .fin 0
  | .exp, .nan => .nan
  | .sqrt, .fin q => if q < 0 then .nan else .fin (fns.sqrtQ q)
  | .sqrt, .pinf => .pinf
  | .sqrt, .ninf => .nan
  | .sqrt, .nan => .nan

/-- A Python value as it occurs in the evaluation scope or as an
evaluation result.  Python-native numbers (`pynum`: int or float
literals, and `pi`, since `np.pi` is a plain Python float) are kept
apart from numpy float64 scalars (`scl`: the state components the
solver passes in, and ufunc results), because their division-by-zero
behaviour differs: Python numbers raise ZeroDivisionError, numpy
values produce IEEE inf/NaN.  Python ints and floats are not
distinguished from each other (both raise on division by zero, and no
claim depends on the int/float distinction). -/
inductive Val
  | pynum : ℚ → Val
  | scl : EF → Val
  | mat : Mat → Val
  | func : UF → Val
  | str : String → Val
  deriving DecidableEq

/-- The Python exceptions the evaluator can raise.  `eval` with
`{"__builtins__": None}` raises NameError for an unbound identifier,
and ZeroDivisionError when both operands of a zero division are
Python-native numbers. -/
inductive EvalErr
  | nameError : String → EvalErr
  | zeroDivisionError : EvalErr
  | typeError : String → EvalErr
  | valueError : String → EvalErr
  | attributeError : String → EvalErr
  deriving DecidableEq

/-- The message text of an exception, as interpolated by line 133
(`st.error(f"Equation Error: \x7be\x7d")`). -/
def EvalErr.msg : EvalErr → String
  | .nameError n => "name " ++ n ++ " is not defined"
  | .zeroDivisionError => "division by zero"
  | .typeError s => "unsupported operand type: " ++ s
  | .valueError s => "operands could not be broadcast together: " ++ s
  | .attributeError a => "object has no attribute " ++ a

/-- Association-list lookup: the model of reading a Python dict. -/
def lookupA {α : Type} : List (String × α) → String → Option α
  | [], _ => none
  | (k, v) :: rest, n => if k = n then some v else lookupA rest n

/-- A Python dict of named values, as an association list. -/
abbrev Scope := List (String × Val)

/-- Elementwise map over a 2-D array. -/
def matMap (f : EF → EF) (m : Mat) : Mat := m.map (fun row => row.map f)

/-- Elementwise combination of two 2-D arrays of the same shape. -/
def matZip (f : EF → EF → EF) (a b : Mat) : Mat :=
  List.zipWith (fun ra rb => List.zipWith f ra rb) a b

/-- The row-length profile of a 2-D array, used for the broadcast
compatibility check. -/
def rowLens (m : Mat) : List ℕ := m.map List.length

/-- The four arithmetic operators of the expression language. -/
inductive BinOp
  | add | sub | mul | div
  deriving DecidableEq

/-- Pure-Python arithmetic on two Python-native numbers: the result is
again a Python number, and division by zero raises
ZeroDivisionError. -/
def pyBinop : BinOp → ℚ → ℚ → Except EvalErr Val
  | .add, a, b => .ok (.pynum (a + b))
  | .sub, a, b => .ok (.pynum (a - b))
  | .mul, a, b => .ok (.pynum (a * b))
  | .div, a, b =>
      if b = 0 then .error .zeroDivisionError else .ok (.pynum (a / b))

/-- The numpy float64 interpretation of an operator, used as soon as
either operand is numpy-typed. -/
def npOp : BinOp → EF → EF → EF
  | .add => EF.add
  | .sub => EF.sub
  | .mul => EF.mul
  | .div => EF.div

/-- A binary arithmetic operator on Python values.  If both operands
are Python-native numbers, Python semantics apply (ZeroDivisionError
on zero division); if either operand is a numpy float64 or an array,
numpy coerces and applies IEEE semantics with broadcasting (scalar
with scalar, scalar with array, or two arrays of identical shape).  A
ufunc or string operand is a TypeError, mismatched shapes a
ValueError. -/
def valBinop (op : BinOp) : Val → Val → Except EvalErr Val
  | .pynum a, .pynum b => pyBinop op a b
  | .pynum a, .scl e => .ok (.scl (npOp op (.fin a) e))
  | .scl e, .pynum b => .ok (.scl (npOp op e (.fin b)))
  | .scl a, .scl b => .ok (.scl (npOp op a b))
  | .pynum a, .mat m => .ok (.mat (matMap (fun e => npOp op (.fin a) e) m))
  | .scl a, .mat m => .ok (.mat (matMap (fun e => npOp op a e) m))
  | .mat m, .pynum b => .ok (.mat (matMap (fun e => npOp op e (.fin b)) m))
  | .mat m, .scl b => .ok (.mat (matMap (fun e => npOp op e b) m))
  | .mat m, .mat n =>
      if rowLens m = rowLens n then .ok (.mat (matZip (npOp op) m n))
      else .error (.valueError "shapes")
  | _, _ => .error (.typeError "operand")

/-- Unary minus: keeps a Python number Python-typed, applies
elementwise to arrays. -/
def valNeg : Val → Except EvalErr Val
  | .pynum a => .ok (.pynum (-a))
  | .scl a => .ok (.scl (EF.neg a))
  | .mat m => .ok (.mat (matMap EF.neg m))
  | _ => .error (.typeError "unary minus")

/-- Calling a value on one argument: the ufuncs apply elementwise and
return numpy float64 even on a Python-number argument; anything else
is not callable. -/
def applyCall (fns : MathFns) : Val → Val → Except EvalErr Val
  | .func u, .pynum a => .ok (.scl (applyUF fns u (.fin a)))
  | .func u, .scl e => .ok (.scl (applyUF fns u e))
  | .func u, .mat m => .ok (.mat (matMap (applyUF fns u) m))
  | .func _, _ => .error (.typeError "ufunc argument")
  | _, _ => .error (.typeError "object is not callable")

/-- Attribute lookup (`getattr`).  A Python number, a numpy float64 or
a real array has a `real` attribute equal to itself; this is the
fragment of `getattr` the claims exercise.  Other attributes are
modelled as AttributeError. -/
def getAttr : Val → String → Except EvalErr Val
  | .pynum a, "real" => .ok (.pynum a)
  | .scl v, "real" => .ok (.scl v)
  | .mat m, "real" => .ok (.mat m)
  | _, a => .error (.attributeError a)

/-- The abstract syntax of the Python expressions the script can
receive: numeric and string literals, identifiers, unary minus, the
four arithmetic operators, single-argument calls, and attribute
access. -/
inductive PExpr
  | lit : ℚ → PExpr
  | strLit : String → PExpr
  | name : String → PExpr
  | neg : PExpr → PExpr
  | add : PExpr → PExpr → PExpr
  | sub : PExpr → PExpr → PExpr
  | mul : PExpr → PExpr → PExpr
  | div : PExpr → PExpr → PExpr
  | call : PExpr → PExpr → PExpr
  | attr : PExpr → String → PExpr
  deriving DecidableEq

/-- Evaluation of an expression over a scope: the model of
`eval(expr, \x7b"__builtins__": None\x7d, scope)` at lines 44-45 and
52-53.  Operands evaluate left to right; an unbound name raises
NameError naming the identifier; errors propagate. -/
def evalE (fns : MathFns) (sc : Scope) : PExpr → Except EvalErr Val
  | .lit q => .ok (.pynum q)
  | .strLit s => .ok (.str s)
  | .name n =>
      match lookupA sc n with
      | some v => .ok v
      | none => .error (.nameError n)
  | .neg e =>
      match evalE fns sc e with
      | .error err => .error err
      | .ok v => valNeg v
  | .add a b =>
      match evalE fns sc a with
      | .error err => .error err
      | .ok va =>
          match evalE fns sc b with
          | .error err => .error err
          | .ok vb => valBinop .add va vb
  | .sub a b =>
      match evalE fns sc a with
      | .error err => .error err
      | .ok va =>
          match evalE fns sc b with
          | .error err => .error err
          | .ok vb => valBinop .sub va vb
  | .mul a b =>
      match evalE fns sc a with
      | .error err => .error err
      | .ok va =>
          match evalE fns sc b with
          | .error err => .error err
          | .ok vb => valBinop .mul va vb
  | .div a b =>
      match evalE fns sc a with
      | .error err => .error err
      | .ok va =>
          match evalE fns sc b with
          | .error err => .error err
          | .ok vb => valBinop .div va vb
  | .call f a =>
      match evalE fns sc f with
      | .error err => .error err
      | .ok vf =>
          match evalE fns sc a with
          | .error err => .error err
          | .ok va => applyCall fns vf va
  | .attr o a =>
      match evalE fns sc o with
      | .error err => .error err
      | .ok vo => getAttr vo a

/-- The value of `np.pi` as printed (the claims do not depend on the
exact binary double). -/
def piQ : ℚ := 3141592653589793 / 1000000000000000

/-- The evaluation scope built at lines 36-40 of the source, with the
grid arrays bound to `x` and `y`.  Note the absence of `log`. -/
def local_scope (X Y : Mat) : Scope :=
  [("sin", .func .sin), ("cos", .func .cos), ("tan", .func .tan),
   ("exp", .func .exp), ("sqrt", .func .sqrt), ("pi", .pynum piQ),
   ("x", .mat X), ("y", .mat Y)]

/-- Model of `np.linspace a b n`: `n` uniformly spaced values from `a` to `b`
inclusive. -/
def linspace (a b : ℚ) (n : ℕ) : List ℚ :=
  if n = 0 then []
  else if n = 1 then [a]
  else (List.range n).map (fun (i : ℕ) => a + (b - a) * (i : ℚ) / ((n : ℚ) - 1))

/-- First output of `np.meshgrid xs ys` (default indexing): row `i` is
a copy of `xs`. -/
def meshgridX (xs ys : List ℚ) : Mat :=
  ys.map (fun _ => xs.map (fun xv => EF.fin xv))

/-- Second output of `np.meshgrid xs ys`: row `i` is `ys[i]` repeated
across the row. -/
def meshgridY (xs ys : List ℚ) : Mat :=
  ys.map (fun yv => xs.map (fun _ => EF.fin yv))

/-- The vector-field computation of lines 44-45: evaluate the two
expressions over the scope holding the grid arrays.  The result is
returned exactly as `eval` produced it; the source performs no
broadcasting step. -/
def sampleField (fns : MathFns) (eqX eqY : PExpr) (X Y : Mat) :
    Except EvalErr (Val × Val) :=
  match evalE fns (local_scope X Y) eqX with
  | .error err => .error err
  | .ok u =>
      match evalE fns (local_scope X Y) eqY with
      | .error err => .error err
      | .ok v => .ok (u, v)

/-- Equality of evaluation outcomes is decidable. -/
instance {ε α : Type} [DecidableEq ε] [DecidableEq α] : DecidableEq (Except ε α)
  | .error e, .error f =>
      if h : e = f then .isTrue (by rw [h]) else .isFalse (by simp [h])
  | .error _, .ok _ => .isFalse (by simp)
  | .ok _, .error _ => .isFalse (by simp)
  | .ok a, .ok b =>
      if h : a = b then .isTrue (by rw [h]) else .isFalse (by simp [h])

/-- Python dict item assignment `d[k] = v`: replaces the value of an
existing key in place (keeping its position) or appends a new key. -/
def dictSet : Scope → String → Val → Scope
  | [], k, v => [(k, v)]
  | (k0, v0) :: rest, k, v =>
      if k0 = k then (k, v) :: rest else (k0, v0) :: dictSet rest k v

/-- A heap of Python dicts, so that dict mutation and `.copy()` can be
modelled faithfully: a reference is an index into the store. -/
abbrev Store := List Scope

/-- Allocate a fresh dict holding `d` (the model of `.copy()`),
returning the new store and the fresh reference. -/
def Store.alloc (st : Store) (d : Scope) : Store × ℕ := (st ++ [d], st.length)

/-- Dereference a dict. -/
def Store.getRef (st : Store) (r : ℕ) : Scope := st.getD r []

/-- In-place item assignment on the dict at reference `r`. -/
def Store.setKey (st : Store) (r : ℕ) (k : String) (v : Val) : Store :=
  st.set r (dictSet (st.getD r []) k v)

/-- The derivative callback `system_func` of lines 48-54: copy the
scope dict, rebind `x` and `y` to the scalar state components on the
copy only, then evaluate both expressions over the copy.  Returns the
evaluation outcome together with the store after the call. -/
def system_func (fns : MathFns) (eqX eqY : PExpr) (st : Store) (localRef : ℕ)
    (sx sy : EF) : (Except EvalErr (Val × Val)) × Store :=
  let p := st.alloc (st.getRef localRef)
  let st2 := (p.1.setKey p.2 "x" (.scl sx)).setKey p.2 "y" (.scl sy)
  let sc := st2.getRef p.2
  (match evalE fns sc eqX with
   | .error err => .error err
   | .ok dxdt =>
       match evalE fns sc eqY with
       | .error err => .error err
       | .ok dydt => .ok (dxdt, dydt), st2)

/-- A state during integration: a pair of float64 components (the
solver hands `system_func` an ndarray of two float64 scalars). -/
abbrev S := EF × EF

/-- Coerce an evaluation result to a float64, as the solver requires
of the returned derivative components. -/
def valToEF : Val → Except EvalErr EF
  | .pynum a => .ok (.fin a)
  | .scl e => .ok e
  | _ => .error (.typeError "expected a scalar")

/-- The derivative function handed to the solver, as a function of the
scalar state and the time (which `system_func` ignores, as the scope
binds no `t`): `system_func` with the results coerced to floats. -/
def derivAt (fns : MathFns) (eqX eqY : PExpr) (st : Store) (r : ℕ) (s : S)
    (_t : ℚ) : Except EvalErr S :=
  match (system_func fns eqX eqY st r s.1 s.2).1 with
  | .error err => .error err
  | .ok p =>
      match valToEF p.1 with
      | .error err => .error err
      | .ok dx =>
          match valToEF p.2 with
          | .error err => .error err
          | .ok dy => .ok (dx, dy)

/-- Model of `scipy.integrate.odeint` when the derivative callback
cannot fail, treated as a black box per the spec: the first output row
is exactly the initial state, and each later row is produced from the
previous one by an abstract solver step `step cur tprev t`.  One row
per requested time; no other structure is assumed. -/
def odeintGo (step : S → ℚ → ℚ → S) : S → ℚ → List ℚ → List S
  | _, _, [] => []
  | cur, tprev, t :: rest =>
      let nxt := step cur tprev t
      nxt :: odeintGo step nxt t rest

/-- See `odeintGo`; the whole output of the solver on the requested
time list. -/
def odeintModel (step : S → ℚ → ℚ → S) (y0 : S) (ts : List ℚ) : List S :=
  match ts with
  | [] => []
  | t0 :: rest => y0 :: odeintGo step y0 t0 rest

/-- Model of `odeint` with a fallible derivative callback: a Python
exception raised by the callback propagates out of the solver, so the
whole call either returns the complete state list or surfaces the
single exception — the caller can never observe a partial
trajectory. `comb cur d tprev t` is the abstract solver update using
the derivative value `d`. -/
def integrateGo (f : S → ℚ → Except EvalErr S) (comb : S → S → ℚ → ℚ → S) :
    S → ℚ → List ℚ → Except EvalErr (List S)
  | _, _, [] => .ok []
  | cur, tprev, t :: rest =>
      match f cur tprev with
      | .error e => .error e
      | .ok d =>
          match integrateGo f comb (comb cur d tprev t) t rest with
          | .error e => .error e
          | .ok tr => .ok (comb cur d tprev t :: tr)

/-- See `integrateGo`: the solver evaluates the derivative at the
initial time first, then produces the rows. -/
def integrateModel (f : S → ℚ → Except EvalErr S) (comb : S → S → ℚ → ℚ → S)
    (y0 : S) (ts : List ℚ) : Except EvalErr (List S) :=
  match ts with
  | [] => .ok []
  | t0 :: rest =>
      match f y0 t0 with
      | .error e => .error e
      | .ok _ =>
          match integrateGo f comb y0 t0 rest with
          | .error e => .error e
          | .ok tr => .ok (y0 :: tr)

/-- A concrete instantiation of the abstract solver update for runs:
Euler with unit step weight. -/
def unitEuler (cur d : S) (_tprev _t : ℚ) : S :=
  (EF.add cur.1 d.1, EF.add cur.2 d.2)

/-- Another concrete instantiation of the abstract solver step: keep
the current state. -/
def holdStep (cur : S) (_tprev _t : ℚ) : S := cur

/-- The requested sample times of line 56:
`t_span = np.linspace(0, t_max, frames)`. -/
def t_span (t_max : ℚ) (frames : ℕ) : List ℚ := linspace 0 t_max frames

/-- One animation frame of lines 83-93: a `go.Frame` whose name is
`str(i)` and whose single scatter point is `(sol[i,0], sol[i,1])`. -/
structure AnimationFrame where
  name : String
  px : EF
  py : EF
  deriving DecidableEq

/-- The frame list built by the loop at lines 81-93: one frame per
entry of `t_span`, frame `i` labelled `str(i)` and carrying the state
at sample index `i`. -/
def animation_frames (ts : List ℚ) (sol : List S) : List AnimationFrame :=
  (List.range ts.length).map (fun i =>
    ⟨toString i, (sol.getD i (EF.nan, EF.nan)).1, (sol.getD i (EF.nan, EF.nan)).2⟩)

/-- The kind of a value: Python-native number, numpy float64 scalar,
array, function, or string. -/
inductive VKind
  | kpy | kscl | kmat | kfun | kstr
  deriving DecidableEq

/-- The kind of a `Val`. -/
def Val.kind : Val → VKind
  | .pynum _ => .kpy
  | .scl _ => .kscl
  | .mat _ => .kmat
  | .func _ => .kfun
  | .str _ => .kstr

/-- A signature: names with their kinds. -/
abbrev Sig := List (String × VKind)

/-- The signature of a scope. -/
def scopeSig (sc : Scope) : Sig := sc.map (fun p => (p.1, p.2.kind))

/-- Result kind of a broadcasting arithmetic operator given the
operand kinds: numeric operands only; Python with Python stays
Python, a numpy scalar infects the result, and an array wins over
either scalar kind. -/
def numKind2 : Option VKind → Option VKind → Option VKind
  | some .kpy, some .kpy => some .kpy
  | some .kpy, some .kscl => some .kscl
  | some .kscl, some .kpy => some .kscl
  | some .kscl, some .kscl => some .kscl
  | some .kpy, some .kmat => some .kmat
  | some .kscl, some .kmat => some .kmat
  | some .kmat, some .kpy => some .kmat
  | some .kmat, some .kscl => some .kmat
  | some .kmat, some .kmat => some .kmat
  | _, _ => none

/-- Kind inference for arithmetic expressions over the scope: names
bound, functions applied to one numeric argument, no strings or
attribute access in numeric position.  (Exception-freedom additionally
needs `npDivOnly`: a kind-correct expression can still raise
ZeroDivisionError from a division of two Python-native numbers.) -/
def kindOf (sig : Sig) : PExpr → Option VKind
  | .lit _ => some .kpy
  | .strLit _ => none
  | .name n => lookupA sig n
  | .neg e =>
      match kindOf sig e with
      | some .kpy => some .kpy
      | some .kscl => some .kscl
      | some .kmat => some .kmat
      | _ => none
  | .add a b => numKind2 (kindOf sig a) (kindOf sig b)
  | .sub a b => numKind2 (kindOf sig a) (kindOf sig b)
  | .mul a b => numKind2 (kindOf sig a) (kindOf sig b)
  | .div a b => numKind2 (kindOf sig a) (kindOf sig b)
  | .call f a =>
      match kindOf sig f, kindOf sig a with
      | some .kfun, some .kpy => some .kscl
      | some .kfun, some .kscl => some .kscl
      | some .kfun, some .kmat => some .kmat
      | _, _ => none
  | .attr _ _ => none

/-- True unless both operand kinds are Python-native numbers: the
condition under which a division applies numpy (total, IEEE)
semantics rather than Python semantics. -/
def notBothPy : Option VKind → Option VKind → Bool
  | some .kpy, some .kpy => false
  | _, _ => true

/-- Check that every division in the expression has at least one
numpy-typed operand (a float64 scalar or an array), so that no
division can raise ZeroDivisionError: such expressions evaluate
without exception in array mode and scalar mode alike. -/
def npDivOnly (sig : Sig) : PExpr → Bool
  | .lit _ => true
  | .strLit _ => true
  | .name _ => true
  | .neg e => npDivOnly sig e
  | .add a b => npDivOnly sig a && npDivOnly sig b
  | .sub a b => npDivOnly sig a && npDivOnly sig b
  | .mul a b => npDivOnly sig a && npDivOnly sig b
  | .div a b =>
      npDivOnly sig a && npDivOnly sig b
        && notBothPy (kindOf sig a) (kindOf sig b)
  | .call f a => npDivOnly sig f && npDivOnly sig a
  | .attr o _ => npDivOnly sig o

/-- Shape test: `m` has exactly `r` rows of `c` entries each. -/
def matShapeB (m : Mat) (r c : ℕ) : Bool :=
  m.length == r && m.all (fun row => row.length == c)

/-- Every array bound in the scope has shape `r × c`. -/
def scopeShapesB (sc : Scope) (r c : ℕ) : Bool :=
  sc.all (fun p =>
    match p.2 with
    | .mat m => matShapeB m r c
    | _ => true)

/-- A value whose array part (if any) has shape `r × c`. -/
def ShapeOK (r c : ℕ) (v : Val) : Prop :=
  ∀ m, v = Val.mat m → matShapeB m r c = true

/-- Substring test on character lists. -/
def subChars : List Char → List Char → Bool
  | [], _ => true
  | n, [] => n.isEmpty
  | n, c :: cs => n.isPrefixOf (c :: cs) || subChars n cs

/-- Predicate `mentions needle hay`: `needle` occurs as a contiguous substring
of `hay` (used to state that an error message includes the offending
identifier). -/
def mentions (needle hay : String) : Bool := subChars needle.data hay.data

/-- The grid actually built at lines 31-33 of the source uses 20
points per axis on `[-6, 6]`; these are those axes. -/
def gridXs : List ℚ := linspace (-6) 6 20

/-- See `gridXs`. -/
def gridYs : List ℚ := linspace (-6) 6 20

/-- The `X` coordinate array of line 33. -/
def gridX : Mat := meshgridX gridXs gridYs

/-- The `Y` coordinate array of line 33. -/
def gridY : Mat := meshgridY gridXs gridYs

/-- The user expression `x/y`, which divides by zero wherever `y` is
zero. -/
def divExprX : PExpr := .div (.name "x") (.name "y")

/-- The user expression `1/y`. -/
def divExprY : PExpr := .div (.lit 1) (.name "y")

/-- The user expression `log(x)`; `log` is not in the scope. -/
def logExprX : PExpr := .call (.name "log") (.name "x")

/-- A one-dict store holding the evaluation scope over a 1-cell grid,
for concrete integration runs. -/
def store1 : Store := [local_scope [[EF.fin 0]] [[EF.fin 0]]]

/-- The derivative function for the pair (`x/y`, `1/y`). -/
def derivDiv : S → ℚ → Except EvalErr S := derivAt fns0 divExprX divExprY store1 0

/-- The derivative function for the pair (`log(x)`, `1/y`): its first
evaluation raises NameError for `log`. -/
def derivLog : S → ℚ → Except EvalErr S := derivAt fns0 logExprX divExprY store1 0

/-- The scalar-mode scope reached inside `system_func` at the state
`(1, 0)`: the copy of the scope with `x` and `y` rebound to the
scalar state components. -/
def scStep : Scope :=
  dictSet (dictSet (local_scope [[EF.fin 0]] [[EF.fin 0]]) "x" (.scl (.fin 1)))
    "y" (.scl (.fin 0))

/-! Helper lemmas (shared across the claim theorems). -/

theorem getD_map_lt {α β : Type} (f : α → β) :
    ∀ (l : List α) (i : ℕ), i < l.length → ∀ (d : β) (d0 : α),
      (l.map f).getD i d = f (l.getD i d0) := by
  intro l
  induction l with
  | nil => intro i hi d d0; exact absurd hi (by simp)
  | cons a l ih =>
      intro i hi d d0
      cases i with
      | zero => rfl
      | succ i => exact ih i (by simpa using hi) d d0

theorem getD_append_lt {α : Type} :
    ∀ (l l2 : List α) (i : ℕ), i < l.length → ∀ d, (l ++ l2).getD i d = l.getD i d := by
  intro l
  induction l with
  | nil => intro l2 i hi d; exact absurd hi (by simp)
  | cons a l ih =>
      intro l2 i hi d
      cases i with
      | zero => rfl
      | succ i => exact ih l2 i (by simpa using hi) d

theorem getD_concat_length {α : Type} :
    ∀ (l : List α) (x : α) (d : α), (l ++ [x]).getD l.length d = x := by
  intro l
  induction l with
  | nil => intro x d; rfl
  | cons a l ih => intro x d; exact ih x d

theorem getD_range_lt : ∀ (n i : ℕ), i < n → ∀ d, (List.range n).getD i d = i := by
  intro n
  induction n with
  | zero => intro i hi d; exact absurd hi (by simp)
  | succ n ih =>
      intro i hi d
      rw [List.range_succ]
      rcases Nat.lt_succ_iff_lt_or_eq.mp hi with h | h
      · rw [getD_append_lt _ _ _ (by simpa using h)]
        exact ih i h d
      · subst h
        have := getD_concat_length (List.range i) i d
        simpa using this

theorem getD_set_ne {α : Type} :
    ∀ (l : List α) (j : ℕ) (v : α) (i : ℕ), j ≠ i → ∀ d,
      (l.set j v).getD i d = l.getD i d := by
  intro l
  induction l with
  | nil => intro j v i hne d; rfl
  | cons a l ih =>
      intro j v i hne d
      cases j with
      | zero =>
          cases i with
          | zero => exact absurd rfl hne
          | succ i => rfl
      | succ j =>
          cases i with
          | zero => rfl
          | succ i => exact ih j v i (fun h => hne (by rw [h])) d

theorem lookupA_isSome {α : Type} :
    ∀ (l : List (String × α)) (n : String),
      (lookupA l n).isSome = (l.map Prod.fst).contains n := by
  intro l
  induction l with
  | nil => intro n; rfl
  | cons p rest ih =>
      intro n
      by_cases h : p.1 = n
      · simp [lookupA, h, List.contains_cons]
      · simp [lookupA, h, ih, List.contains_cons, Ne.symm h]

theorem lookupA_scopeSig :
    ∀ (sc : Scope) (n : String),
      lookupA (scopeSig sc) n = (lookupA sc n).map Val.kind := by
  intro sc
  induction sc with
  | nil => intro n; rfl
  | cons p rest ih =>
      intro n
      by_cases h : p.1 = n
      · simp [lookupA, scopeSig, h]
      · simp only [scopeSig, List.map_cons, lookupA, if_neg h]
        exact ih n

theorem lookupA_shape :
    ∀ (sc : Scope) (r c : ℕ), scopeShapesB sc r c = true →
      ∀ (n : String) (m : Mat), lookupA sc n = some (.mat m) → matShapeB m r c = true := by
  intro sc
  induction sc with
  | nil => intro r c _ n m h; exact absurd h (by simp [lookupA])
  | cons p rest ih =>
      intro r c hsc n m h
      have hsc' : (match p.2 with
          | Val.mat m0 => matShapeB m0 r c
          | _ => true) = true ∧ scopeShapesB rest r c = true := by
        simpa [scopeShapesB, List.all_cons] using hsc
      by_cases hk : p.1 = n
      · simp only [lookupA, hk, if_pos rfl] at h
        have hv : p.2 = Val.mat m := by
          cases hh : p.2 <;> simp [hh] at h <;> try exact absurd h (by simp)
          · exact congrArg Val.mat h
        rw [hv] at hsc'
        exact hsc'.1
      · simp only [lookupA, hk, if_neg hk] at h
        exact ih r c hsc'.2 n m h

theorem isPrefixOf_append_self :
    ∀ (l t : List Char), l.isPrefixOf (l ++ t) = true := by
  intro l
  induction l with
  | nil => intro t; cases t <;> rfl
  | cons c cs ih => intro t; simp [List.isPrefixOf, ih]

theorem subChars_append :
    ∀ (pre l suf : List Char), subChars l (pre ++ l ++ suf) = true := by
  intro pre
  induction pre with
  | nil =>
      intro l suf
      cases l with
      | nil => cases suf <;> rfl
      | cons c cs => simp [subChars, isPrefixOf_append_self]
  | cons p pre ih =>
      intro l suf
      cases l with
      | nil => rfl
      | cons c cs =>
          have h := ih (c :: cs) suf
          simp only [List.cons_append, subChars, Bool.or_eq_true]
          right
          simpa using h

theorem mentions_parts (pre mid suf : String) :
    mentions mid (pre ++ mid ++ suf) = true := by
  have h : (pre ++ mid ++ suf).data = pre.data ++ mid.data ++ suf.data := by
    simp
  rw [mentions, h]
  exact subChars_append pre.data mid.data suf.data

theorem mentions_nameError (n : String) :
    mentions n (EvalErr.msg (.nameError n)) = true :=
  mentions_parts "name " n " is not defined"

theorem matShapeB_iff (m : Mat) (r c : ℕ) :
    matShapeB m r c = true ↔ m.length = r ∧ ∀ row ∈ m, row.length = c := by
  simp [matShapeB, List.all_eq_true]

theorem matShapeB_matMap (f : EF → EF) (m : Mat) (r c : ℕ)
    (h : matShapeB m r c = true) : matShapeB (matMap f m) r c = true := by
  rw [matShapeB_iff] at h ⊢
  refine ⟨by simp [matMap, h.1], ?_⟩
  intro row hrow
  simp only [matMap, List.mem_map] at hrow
  obtain ⟨row0, hrow0, hmap⟩ := hrow
  rw [← hmap]
  simp [h.2 row0 hrow0]

theorem rowLens_eq_replicate (m : Mat) (r c : ℕ)
    (h : matShapeB m r c = true) : rowLens m = List.replicate r c := by
  rw [matShapeB_iff] at h
  rw [List.eq_replicate_iff]
  refine ⟨by simp [rowLens, h.1], ?_⟩
  intro b hb
  simp only [rowLens, List.mem_map] at hb
  obtain ⟨row, hrow, hlen⟩ := hb
  rw [← hlen]
  exact h.2 row hrow

theorem matShapeB_of_rowLens (m : Mat) (r c : ℕ)
    (h : rowLens m = List.replicate r c) : matShapeB m r c = true := by
  rw [matShapeB_iff]
  constructor
  · have hlen := congrArg List.length h
    simpa [rowLens] using hlen
  · intro row hrow
    have hmem : row.length ∈ rowLens m := by
      simp only [rowLens, List.mem_map]
      exact ⟨row, hrow, rfl⟩
    rw [h] at hmem
    exact List.eq_of_mem_replicate hmem

theorem rowLens_matZip (f : EF → EF → EF) :
    ∀ (m n : Mat), rowLens m = rowLens n → rowLens (matZip f m n) = rowLens m := by
  intro m
  induction m with
  | nil => intro n h; rfl
  | cons ra m ih =>
      intro n h
      cases n with
      | nil => exact absurd h (by simp [rowLens])
      | cons rb n =>
          have h1 : ra.length = rb.length ∧ rowLens m = rowLens n := by
            simpa [rowLens] using h
          have htail := ih n h1.2
          simp only [matZip, List.zipWith_cons_cons, rowLens, List.map_cons,
            List.length_zipWith, h1.1, Nat.min_self, List.cons.injEq, true_and]
          simpa [matZip, rowLens] using htail

theorem matShapeB_matZip (f : EF → EF → EF) (m n : Mat) (r c : ℕ)
    (hm : matShapeB m r c = true) (hn : matShapeB n r c = true) :
    matShapeB (matZip f m n) r c = true := by
  have hrm := rowLens_eq_replicate m r c hm
  have hrn := rowLens_eq_replicate n r c hn
  have heq : rowLens m = rowLens n := by rw [hrm, hrn]
  apply matShapeB_of_rowLens
  rw [rowLens_matZip f m n heq, hrm]

theorem shapeOK_scl (r c : ℕ) (e : EF) : ShapeOK r c (.scl e) := by
  intro m h
  exact absurd h (by simp)

theorem shapeOK_pynum (r c : ℕ) (a : ℚ) : ShapeOK r c (.pynum a) := by
  intro m h
  exact absurd h (by simp)

theorem shapeOK_mat (r c : ℕ) (m : Mat) (h : matShapeB m r c = true) :
    ShapeOK r c (.mat m) := by
  intro m' h'
  have : m = m' := by injection h'
  rw [← this]
  exact h

theorem kind_py {v : Val} (h : v.kind = .kpy) : ∃ a, v = .pynum a := by
  cases v <;> simp [Val.kind] at h <;> exact ⟨_, rfl⟩

theorem kind_scl {v : Val} (h : v.kind = .kscl) : ∃ e, v = .scl e := by
  cases v <;> simp [Val.kind] at h <;> exact ⟨_, rfl⟩

theorem kind_mat {v : Val} (h : v.kind = .kmat) : ∃ m, v = .mat m := by
  cases v <;> simp [Val.kind] at h <;> exact ⟨_, rfl⟩

theorem kind_fun {v : Val} (h : v.kind = .kfun) : ∃ u, v = .func u := by
  cases v <;> simp [Val.kind] at h <;> exact ⟨_, rfl⟩

theorem valBinop_total (r c : ℕ) (op : BinOp) (va vb : Val) (k : VKind)
    (hk : numKind2 (some va.kind) (some vb.kind) = some k)
    (hsafe : op = BinOp.div → notBothPy (some va.kind) (some vb.kind) = true)
    (ha : ShapeOK r c va) (hb : ShapeOK r c vb) :
    ∃ v, valBinop op va vb = .ok v ∧ v.kind = k ∧ ShapeOK r c v := by
  cases va with
  | pynum a =>
      cases vb with
      | pynum b =>
          have hks : k = .kpy := by simpa [Val.kind, numKind2] using hk.symm
          cases op with
          | add => exact ⟨.pynum (a + b), rfl, by rw [hks]; rfl, shapeOK_pynum r c _⟩
          | sub => exact ⟨.pynum (a - b), rfl, by rw [hks]; rfl, shapeOK_pynum r c _⟩
          | mul => exact ⟨.pynum (a * b), rfl, by rw [hks]; rfl, shapeOK_pynum r c _⟩
          | div =>
              have hfalse := hsafe rfl
              simp [Val.kind, notBothPy] at hfalse
      | scl e =>
          have hks : k = .kscl := by simpa [Val.kind, numKind2] using hk.symm
          exact ⟨.scl (npOp op (.fin a) e), rfl, by rw [hks]; rfl, shapeOK_scl r c _⟩
      | mat mb =>
          have hks : k = .kmat := by simpa [Val.kind, numKind2] using hk.symm
          refine ⟨.mat (matMap (fun e => npOp op (.fin a) e) mb), rfl,
            by rw [hks]; rfl, ?_⟩
          exact shapeOK_mat r c _ (matShapeB_matMap _ mb r c (hb mb rfl))
      | func u => simp [Val.kind, numKind2] at hk
      | str s => simp [Val.kind, numKind2] at hk
  | scl ea =>
      cases vb with
      | pynum b =>
          have hks : k = .kscl := by simpa [Val.kind, numKind2] using hk.symm
          exact ⟨.scl (npOp op ea (.fin b)), rfl, by rw [hks]; rfl, shapeOK_scl r c _⟩
      | scl eb =>
          have hks : k = .kscl := by simpa [Val.kind, numKind2] using hk.symm
          exact ⟨.scl (npOp op ea eb), rfl, by rw [hks]; rfl, shapeOK_scl r c _⟩
      | mat mb =>
          have hks : k = .kmat := by simpa [Val.kind, numKind2] using hk.symm
          refine ⟨.mat (matMap (fun e => npOp op ea e) mb), rfl,
            by rw [hks]; rfl, ?_⟩
          exact shapeOK_mat r c _ (matShapeB_matMap _ mb r c (hb mb rfl))
      | func u => simp [Val.kind, numKind2] at hk
      | str s => simp [Val.kind, numKind2] at hk
  | mat ma =>
      cases vb with
      | pynum b =>
          have hks : k = .kmat := by simpa [Val.kind, numKind2] using hk.symm
          refine ⟨.mat (matMap (fun e => npOp op e (.fin b)) ma), rfl,
            by rw [hks]; rfl, ?_⟩
          exact shapeOK_mat r c _ (matShapeB_matMap _ ma r c (ha ma rfl))
      | scl eb =>
          have hks : k = .kmat := by simpa [Val.kind, numKind2] using hk.symm
          refine ⟨.mat (matMap (fun e => npOp op e eb) ma), rfl,
            by rw [hks]; rfl, ?_⟩
          exact shapeOK_mat r c _ (matShapeB_matMap _ ma r c (ha ma rfl))
      | mat mb =>
          have hks : k = .kmat := by simpa [Val.kind, numKind2] using hk.symm
          have hsa := ha ma rfl
          have hsb := hb mb rfl
          have hrl : rowLens ma = rowLens mb := by
            rw [rowLens_eq_replicate ma r c hsa, rowLens_eq_replicate mb r c hsb]
          refine ⟨.mat (matZip (npOp op) ma mb), ?_, by rw [hks]; rfl, ?_⟩
          · simp [valBinop, hrl]
          · exact shapeOK_mat r c _ (matShapeB_matZip (npOp op) ma mb r c hsa hsb)
      | func u => simp [Val.kind, numKind2] at hk
      | str s => simp [Val.kind, numKind2] at hk
  | func u => simp [Val.kind, numKind2] at hk
  | str s => simp [Val.kind, numKind2] at hk

theorem evalE_total (fns : MathFns) (sc : Scope) (r c : ℕ)
    (hsc : scopeShapesB sc r c = true) :
    ∀ (e : PExpr) (k : VKind), kindOf (scopeSig sc) e = some k →
      npDivOnly (scopeSig sc) e = true →
      ∃ v, evalE fns sc e = .ok v ∧ v.kind = k ∧ ShapeOK r c v := by
  intro e
  induction e with
  | lit q =>
      intro k hk _
      have : k = .kpy := by simpa [kindOf] using hk.symm
      exact ⟨.pynum q, rfl, by rw [this]; rfl, shapeOK_pynum r c _⟩
  | strLit s => intro k hk _; simp [kindOf] at hk
  | name n =>
      intro k hk _
      rw [kindOf, lookupA_scopeSig] at hk
      cases hv : lookupA sc n with
      | none => rw [hv] at hk; simp at hk
      | some v =>
          rw [hv] at hk
          simp only [Option.map_some'] at hk
          have hkv : v.kind = k := by injection hk
          refine ⟨v, by simp [evalE, hv], hkv, ?_⟩
          intro m hm
          rw [hm] at hv
          exact lookupA_shape sc r c hsc n m hv
  | neg e ih =>
      intro k hk hnp
      rw [kindOf] at hk
      rw [npDivOnly] at hnp
      cases hke : kindOf (scopeSig sc) e with
      | none => rw [hke] at hk; simp at hk
      | some ke =>
          rw [hke] at hk
          obtain ⟨v, hv, hkv, hsh⟩ := ih ke hke hnp
          cases ke with
          | kpy =>
              have hks : k = .kpy := by simpa using hk.symm
              obtain ⟨a0, ha0⟩ := kind_py hkv
              refine ⟨.pynum (-a0), ?_, by rw [hks]; rfl, shapeOK_pynum r c _⟩
              simp [evalE, hv, ha0, valNeg]
          | kscl =>
              have hks : k = .kscl := by simpa using hk.symm
              obtain ⟨e0, he0⟩ := kind_scl hkv
              refine ⟨.scl (EF.neg e0), ?_, by rw [hks]; rfl, shapeOK_scl r c _⟩
              simp [evalE, hv, he0, valNeg]
          | kmat =>
              have hks : k = .kmat := by simpa using hk.symm
              obtain ⟨m0, hm0⟩ := kind_mat hkv
              refine ⟨.mat (matMap EF.neg m0), ?_, by rw [hks]; rfl, ?_⟩
              · simp [evalE, hv, hm0, valNeg]
              · rw [hm0] at hsh
                exact shapeOK_mat r c _ (matShapeB_matMap _ m0 r c (hsh m0 rfl))
          | kfun => simp at hk
          | kstr => simp at hk
  | add a b iha ihb =>
      intro k hk hnp
      rw [kindOf] at hk
      rw [npDivOnly, Bool.and_eq_true] at hnp
      cases hka : kindOf (scopeSig sc) a with
      | none => rw [hka] at hk; simp [numKind2] at hk
      | some ka =>
          cases hkb : kindOf (scopeSig sc) b with
          | none => rw [hka, hkb] at hk; cases ka <;> simp [numKind2] at hk
          | some kb =>
              rw [hka, hkb] at hk
              obtain ⟨va, hva, hkva, hsha⟩ := iha ka hka hnp.1
              obtain ⟨vb, hvb, hkvb, hshb⟩ := ihb kb hkb hnp.2
              obtain ⟨v, hv, hkv, hshv⟩ := valBinop_total r c .add va vb k
                (by rw [hkva, hkvb]; exact hk) (fun h => nomatch h) hsha hshb
              exact ⟨v, by simp [evalE, hva, hvb, hv], hkv, hshv⟩
  | sub a b iha ihb =>
      intro k hk hnp
      rw [kindOf] at hk
      rw [npDivOnly, Bool.and_eq_true] at hnp
      cases hka : kindOf (scopeSig sc) a with
      | none => rw [hka] at hk; simp [numKind2] at hk
      | some ka =>
          cases hkb : kindOf (scopeSig sc) b with
          | none => rw [hka, hkb] at hk; cases ka <;> simp [numKind2] at hk
          | some kb =>
              rw [hka, hkb] at hk
              obtain ⟨va, hva, hkva, hsha⟩ := iha ka hka hnp.1
              obtain ⟨vb, hvb, hkvb, hshb⟩ := ihb kb hkb hnp.2
              obtain ⟨v, hv, hkv, hshv⟩ := valBinop_total r c .sub va vb k
                (by rw [hkva, hkvb]; exact hk) (fun h => nomatch h) hsha hshb
              exact ⟨v, by simp [evalE, hva, hvb, hv], hkv, hshv⟩
  | mul a b iha ihb =>
      intro k hk hnp
      rw [kindOf] at hk
      rw [npDivOnly, Bool.and_eq_true] at hnp
      cases hka : kindOf (scopeSig sc) a with
      | none => rw [hka] at hk; simp [numKind2] at hk
      | some ka =>
          cases hkb : kindOf (scopeSig sc) b with
          | none => rw [hka, hkb] at hk; cases ka <;> simp [numKind2] at hk
          | some kb =>
              rw [hka, hkb] at hk
              obtain ⟨va, hva, hkva, hsha⟩ := iha ka hka hnp.1
              obtain ⟨vb, hvb, hkvb, hshb⟩ := ihb kb hkb hnp.2
              obtain ⟨v, hv, hkv, hshv⟩ := valBinop_total r c .mul va vb k
                (by rw [hkva, hkvb]; exact hk) (fun h => nomatch h) hsha hshb
              exact ⟨v, by simp [evalE, hva, hvb, hv], hkv, hshv⟩
  | div a b iha ihb =>
      intro k hk hnp
      rw [kindOf] at hk
      rw [npDivOnly, Bool.and_eq_true, Bool.and_eq_true] at hnp
      cases hka : kindOf (scopeSig sc) a with
      | none => rw [hka] at hk; simp [numKind2] at hk
      | some ka =>
          cases hkb : kindOf (scopeSig sc) b with
          | none => rw [hka, hkb] at hk; cases ka <;> simp [numKind2] at hk
          | some kb =>
              rw [hka, hkb] at hk
              have hsafe0 : notBothPy (some ka) (some kb) = true := by
                have h0 := hnp.2
                rw [hka, hkb] at h0
                exact h0
              obtain ⟨va, hva, hkva, hsha⟩ := iha ka hka hnp.1.1
              obtain ⟨vb, hvb, hkvb, hshb⟩ := ihb kb hkb hnp.1.2
              obtain ⟨v, hv, hkv, hshv⟩ := valBinop_total r c .div va vb k
                (by rw [hkva, hkvb]; exact hk)
                (fun _ => by rw [hkva, hkvb]; exact hsafe0) hsha hshb
              exact ⟨v, by simp [evalE, hva, hvb, hv], hkv, hshv⟩
  | call f a ihf iha =>
      intro k hk hnp
      rw [kindOf] at hk
      rw [npDivOnly, Bool.and_eq_true] at hnp
      cases hkf : kindOf (scopeSig sc) f with
      | none => rw [hkf] at hk; simp at hk
      | some kf =>
          cases hka : kindOf (scopeSig sc) a with
          | none => rw [hkf, hka] at hk; cases kf <;> simp at hk
          | some ka =>
              rw [hkf, hka] at hk
              cases kf with
              | kpy => simp at hk
              | kscl => simp at hk
              | kmat => simp at hk
              | kstr => simp at hk
              | kfun =>
                  obtain ⟨vf, hvf, hkvf, _⟩ := ihf .kfun hkf hnp.1
                  obtain ⟨u, hu⟩ := kind_fun hkvf
                  obtain ⟨va, hva, hkva, hsha⟩ := iha ka hka hnp.2
                  cases ka with
                  | kfun => simp at hk
                  | kstr => simp at hk
                  | kpy =>
                      have hks : k = .kscl := by simpa using hk.symm
                      obtain ⟨a0, ha0⟩ := kind_py hkva
                      refine ⟨.scl (applyUF fns u (.fin a0)), ?_, by rw [hks]; rfl,
                        shapeOK_scl r c _⟩
                      simp [evalE, hvf, hva, hu, ha0, applyCall]
                  | kscl =>
                      have hks : k = .kscl := by simpa using hk.symm
                      obtain ⟨e0, he0⟩ := kind_scl hkva
                      refine ⟨.scl (applyUF fns u e0), ?_, by rw [hks]; rfl,
                        shapeOK_scl r c _⟩
                      simp [evalE, hvf, hva, hu, he0, applyCall]
                  | kmat =>
                      have hks : k = .kmat := by simpa using hk.symm
                      obtain ⟨m0, hm0⟩ := kind_mat hkva
                      refine ⟨.mat (matMap (applyUF fns u) m0), ?_, by rw [hks]; rfl, ?_⟩
                      · simp [evalE, hvf, hva, hu, hm0, applyCall]
                      · rw [hm0] at hsha
                        exact shapeOK_mat r c _
                          (matShapeB_matMap _ m0 r c (hsha m0 rfl))
  | attr o a iho =>
      intro k hk _
      simp [kindOf] at hk


theorem odeintGo_length (step : S → ℚ → ℚ → S) :
    ∀ (ts : List ℚ) (cur : S) (tprev : ℚ),
      (odeintGo step cur tprev ts).length = ts.length := by
  intro ts
  induction ts with
  | nil => intro cur tprev; rfl
  | cons t rest ih => intro cur tprev; simp [odeintGo, ih]

theorem odeintModel_length (step : S → ℚ → ℚ → S) (y0 : S) (ts : List ℚ) :
    (odeintModel step y0 ts).length = ts.length := by
  cases ts with
  | nil => rfl
  | cons t0 rest => simp [odeintModel, odeintGo_length]

theorem odeintModel_head (step : S → ℚ → ℚ → S) (y0 : S) (ts : List ℚ)
    (h : ts ≠ []) (d : S) : (odeintModel step y0 ts).getD 0 d = y0 := by
  cases ts with
  | nil => exact absurd rfl h
  | cons t0 rest => rfl

theorem integrateGo_spec (f : S → ℚ → Except EvalErr S) (comb : S → S → ℚ → ℚ → S) :
    ∀ (ts : List ℚ) (cur : S) (tprev : ℚ),
      (∀ tr, integrateGo f comb cur tprev ts = .ok tr → tr.length = ts.length) ∧
      (∀ e, integrateGo f comb cur tprev ts = .error e → ∃ s t, f s t = .error e) := by
  intro ts
  induction ts with
  | nil =>
      intro cur tprev
      constructor
      · intro tr h
        have : ([] : List S) = tr := by simpa [integrateGo] using h
        rw [← this]
        rfl
      · intro e h
        simp [integrateGo] at h
  | cons t rest ih =>
      intro cur tprev
      constructor
      · intro tr h
        cases hf : f cur tprev with
        | error e => simp [integrateGo, hf] at h
        | ok d =>
            cases hrec : integrateGo f comb (comb cur d tprev t) t rest with
            | error e => simp [integrateGo, hf, hrec] at h
            | ok tr' =>
                have h' : comb cur d tprev t :: tr' = tr := by
                  simpa [integrateGo, hf, hrec] using h
                rw [← h']
                have := (ih (comb cur d tprev t) t).1 tr' hrec
                simp [this]
      · intro e h
        cases hf : f cur tprev with
        | error e0 =>
            have h' : e0 = e := by simpa [integrateGo, hf] using h
            exact ⟨cur, tprev, by rw [hf, h']⟩
        | ok d =>
            cases hrec : integrateGo f comb (comb cur d tprev t) t rest with
            | error e0 =>
                have h' : e0 = e := by simpa [integrateGo, hf, hrec] using h
                rw [← h']
                exact (ih (comb cur d tprev t) t).2 e0 hrec
            | ok tr' => simp [integrateGo, hf, hrec] at h

theorem integrateModel_spec (f : S → ℚ → Except EvalErr S)
    (comb : S → S → ℚ → ℚ → S) (y0 : S) (ts : List ℚ) :
    (∀ tr, integrateModel f comb y0 ts = .ok tr → tr.length = ts.length) ∧
    (∀ e, integrateModel f comb y0 ts = .error e → ∃ s t, f s t = .error e) := by
  cases ts with
  | nil =>
      constructor
      · intro tr h
        have : ([] : List S) = tr := by simpa [integrateModel] using h
        rw [← this]
        rfl
      · intro e h
        simp [integrateModel] at h
  | cons t0 rest =>
      constructor
      · intro tr h
        cases hf : f y0 t0 with
        | error e => simp [integrateModel, hf] at h
        | ok d =>
            cases hrec : integrateGo f comb y0 t0 rest with
            | error e => simp [integrateModel, hf, hrec] at h
            | ok tr' =>
                have h' : y0 :: tr' = tr := by
                  simpa [integrateModel, hf, hrec] using h
                rw [← h']
                have := (integrateGo_spec f comb rest y0 t0).1 tr' hrec
                simp [this]
      · intro e h
        cases hf : f y0 t0 with
        | error e0 =>
            have h' : e0 = e := by simpa [integrateModel, hf] using h
            exact ⟨y0, t0, by rw [hf, h']⟩
        | ok d =>
            cases hrec : integrateGo f comb y0 t0 rest with
            | error e0 =>
                have h' : e0 = e := by simpa [integrateModel, hf, hrec] using h
                rw [← h']
                exact (integrateGo_spec f comb rest y0 t0).2 e0 hrec
            | ok tr' => simp [integrateModel, hf, hrec] at h

theorem linspace_length (a b : ℚ) (n : ℕ) : (linspace a b n).length = n := by
  by_cases h0 : n = 0
  · simp [linspace, h0]
  · by_cases h1 : n = 1
    · simp [linspace, h0, h1]
    · simp [linspace, h0, h1]

theorem linspace_getD (a b : ℚ) (n : ℕ) (h2 : 2 ≤ n) (i : ℕ) (hi : i < n) :
    (linspace a b n).getD i 0 = a + (b - a) * (i : ℚ) / ((n : ℚ) - 1) := by
  have h0 : ¬ n = 0 := by omega
  have h1 : ¬ n = 1 := by omega
  rw [linspace, if_neg h0, if_neg h1]
  rw [getD_map_lt _ (List.range n) i (by simpa using hi) 0 0]
  rw [getD_range_lt n i hi 0]

theorem linspace_spacing (a b : ℚ) (n : ℕ) (h2 : 2 ≤ n) (i : ℕ) (hi : i + 1 < n) :
    (linspace a b n).getD (i + 1) 0 - (linspace a b n).getD i 0
      = (b - a) / ((n : ℚ) - 1) := by
  have hne : ((n : ℚ) - 1) ≠ 0 := by
    have : (2 : ℚ) ≤ (n : ℚ) := by exact_mod_cast h2
    intro h
    nlinarith
  rw [linspace_getD a b n h2 (i + 1) hi, linspace_getD a b n h2 i (by omega)]
  push_cast
  field_simp
  ring

theorem meshgridX_getD (xs ys : List ℚ) (i : ℕ) (hi : i < ys.length) :
    (meshgridX xs ys).getD i [] = xs.map (fun xv => EF.fin xv) := by
  rw [meshgridX, getD_map_lt _ ys i hi [] 0]

theorem meshgridY_getD (xs ys : List ℚ) (i : ℕ) (hi : i < ys.length) :
    (meshgridY xs ys).getD i [] = xs.map (fun _ => EF.fin (ys.getD i 0)) := by
  rw [meshgridY, getD_map_lt _ ys i hi [] 0]

theorem animation_frames_getD (ts : List ℚ) (sol : List S) (i : ℕ)
    (hi : i < ts.length) :
    (animation_frames ts sol).getD i ⟨"", EF.nan, EF.nan⟩
      = ⟨toString i, (sol.getD i (EF.nan, EF.nan)).1, (sol.getD i (EF.nan, EF.nan)).2⟩ := by
  rw [animation_frames,
    getD_map_lt _ (List.range ts.length) i (by simpa using hi) _ 0,
    getD_range_lt ts.length i hi 0]

/-! Claim theorems. -/

/-- C1 counterexample: the claim asserts that integrating through a
point where the expression divides by zero raises an IntegrationError.
In the code both modes use numpy float64 arithmetic: at the state
`(1, 0)` the derivative of (`x/y`, `1/y`) evaluates to `(inf, inf)`
with no exception, the whole integration returns a complete trajectory
(never an error), and array-mode sampling at the same point yields an
infinite entry rather than an exception. -/
theorem C1_counterexample :
    derivDiv (EF.fin 1, EF.fin 0) 0 = .ok (EF.pinf, EF.pinf)
    ∧ integrateModel derivDiv unitEuler (EF.fin 1, EF.fin 0) [0, 1]
        = .ok [(EF.fin 1, EF.fin 0), (EF.pinf, EF.pinf)]
    ∧ evalE fns0 (local_scope [[EF.fin 1]] [[EF.fin 0]]) divExprX
        = .ok (.mat [[EF.pinf]]) :=
  ⟨rfl, rfl, rfl⟩

/-- C1 (amended): error behaviour does not split by mode.  Whenever
every division in the expression involves a numpy-typed operand — the
grid arrays bound to x and y in array mode, or the float64 state
components bound to x and y in scalar mode — evaluation never raises
in either mode: division by zero and domain errors produce IEEE
infinite/NaN values (1/0 = +inf, (-1)/0 = -inf, 0/0 = NaN,
sqrt(-1) = NaN), so integrating through a division-by-zero point
succeeds and no IntegrationError exists.  Conversely, dividing two
Python-native numbers by zero — eval of "1/0", or of "pi/0" over the
scope (np.pi is a Python float) — raises ZeroDivisionError
identically in both modes. -/
theorem C1_theorem :
    (∀ (fns : MathFns) (sc : Scope) (r c : ℕ), scopeShapesB sc r c = true →
        ∀ (e : PExpr) (k : VKind), kindOf (scopeSig sc) e = some k →
          npDivOnly (scopeSig sc) e = true →
          ∃ v, evalE fns sc e = .ok v ∧ v.kind = k ∧ ShapeOK r c v)
    ∧ EF.div (.fin 1) (.fin 0) = .pinf
    ∧ EF.div (.fin (-1)) (.fin 0) = .ninf
    ∧ EF.div (.fin 0) (.fin 0) = .nan
    ∧ (∀ fns, applyUF fns .sqrt (.fin (-1)) = .nan)
    ∧ (∀ (fns : MathFns) (sc : Scope),
        evalE fns sc (.div (.lit 1) (.lit 0)) = .error .zeroDivisionError)
    ∧ (∀ (fns : MathFns) (X Y : Mat),
        evalE fns (local_scope X Y) (.div (.name "pi") (.lit 0))
          = .error .zeroDivisionError) :=
  ⟨fun fns sc r c h => evalE_total fns sc r c h, rfl, rfl, rfl, fun _ => rfl,
   fun _ _ => rfl, fun _ _ _ => rfl⟩

/-- C1 witness: scalar-mode evaluation of `x/y` in the step scope at
the state `(1, 0)` (a division by zero through the float64 state
components) completes with a scalar value. -/
theorem C1_witness :
    ∃ v, evalE fns0 scStep divExprX = Except.ok v ∧ v.kind = VKind.kscl
      ∧ ShapeOK 1 1 v :=
  C1_theorem.1 fns0 scStep 1 1 (by decide) divExprX .kscl (by decide) (by decide)

/-- C2 counterexample: with the constant pair ("5","0") over the
20-by-20 grid of the code, the sampler returns the Python scalar 5
(kind: Python number, not an array), not an array of the grid shape
filled with 5: no broadcast is performed. -/
theorem C2_counterexample :
    sampleField fns0 (.lit 5) (.lit 0) gridX gridY
      = .ok (.pynum 5, .pynum 0)
    ∧ (Val.pynum 5).kind = VKind.kpy
    ∧ decide (Val.pynum 5
        = Val.mat (matMap (fun _ => EF.fin 5) gridX)) = false :=
  ⟨rfl, rfl, rfl⟩

/-- C2 (amended): for every grid, sampling the constant pair ("5","0")
returns the scalar 5 and the scalar 0 exactly as `eval` produced them;
the value equals 5 (resp. 0) at every grid point under numpy broadcast
semantics, but no array of the grid shape is built before returning. -/
theorem C2_theorem (fns : MathFns) (X Y : Mat) :
    sampleField fns (.lit 5) (.lit 0) X Y
      = .ok (.pynum 5, .pynum 0) := rfl

/-- C3 counterexample: the claim asserts evaluation never silently
succeeds for an expression containing an attribute access, but
`pi.real` evaluates successfully to the value of `pi` (np.pi is a
Python float, and float.real returns the float itself). -/
theorem C3_counterexample :
    evalE fns0 (local_scope gridX gridY) (.attr (.name "pi") "real")
      = .ok (.pynum piQ) := rfl

/-- C3 (amended): an identifier outside the scope fails with a
NameError whose message contains the offending text (but no spelling
hint, and no dedicated ExpressionError class), while attribute access
on an in-scope value can silently succeed (`pi.real`). -/
theorem C3_theorem (fns : MathFns) (X Y : Mat) :
    (∀ n : String, lookupA (local_scope X Y) n = none →
        evalE fns (local_scope X Y) (.name n) = .error (.nameError n)
        ∧ mentions n (EvalErr.msg (.nameError n)) = true)
    ∧ evalE fns (local_scope X Y) (.attr (.name "pi") "real")
        = .ok (.pynum piQ) := by
  constructor
  · intro n hn
    constructor
    · simp [evalE, hn]
    · exact mentions_nameError n
  · rfl

/-- C3 witness: the disallowed identifier "sinn" fails with a
NameError mentioning "sinn". -/
theorem C3_witness :
    evalE fns0 (local_scope gridX gridY) (.name "sinn") = .error (.nameError "sinn")
    ∧ mentions "sinn" (EvalErr.msg (.nameError "sinn")) = true :=
  (C3_theorem fns0 gridX gridY).1 "sinn" (by decide)

/-- C4: evaluating `sinn(x)` fails with an error whose message
mentions "sinn" (the name lookup fails before anything is applied),
and evaluating `os.system("x")` fails with a NameError for the
disallowed identifier `os` — the attribute lookup and the call are
never reached, so nothing executes. -/
theorem C4_theorem (fns : MathFns) (X Y : Mat) :
    evalE fns (local_scope X Y) (.call (.name "sinn") (.name "x"))
      = .error (.nameError "sinn")
    ∧ mentions "sinn" (EvalErr.msg (.nameError "sinn")) = true
    ∧ evalE fns (local_scope X Y) (.call (.attr (.name "os") "system") (.strLit "x"))
      = .error (.nameError "os") :=
  ⟨rfl, mentions_nameError "sinn", rfl⟩

/-- C5 counterexample: the claim asserts `log` is in the allow-list
and `log(x)` evaluates successfully, but the scope of lines 36-40
contains no `log`, so `log(x)` fails as an unbound identifier. -/
theorem C5_counterexample :
    evalE fns0 (local_scope gridX gridY) logExprX = .error (.nameError "log") := rfl

/-- C5 (amended): the set of names an expression may reference is
exactly sin, cos, tan, exp, sqrt, pi, x, y — `log` is NOT included,
and `log(x)` fails as a disallowed identifier. -/
theorem C5_theorem (X Y : Mat) :
    (local_scope X Y).map Prod.fst
      = ["sin", "cos", "tan", "exp", "sqrt", "pi", "x", "y"]
    ∧ (∀ n : String, (lookupA (local_scope X Y) n).isSome
        = (["sin", "cos", "tan", "exp", "sqrt", "pi", "x", "y"] : List String).contains n)
    ∧ lookupA (local_scope X Y) "log" = none
    ∧ (∀ fns, evalE fns (local_scope X Y) logExprX = .error (.nameError "log")) := by
  refine ⟨rfl, ?_, rfl, fun fns => rfl⟩
  intro n
  rw [lookupA_isSome]
  rfl

/-- C6: integration is atomic — the solver call either returns a
complete trajectory with one state per requested time, or surfaces a
single error that arose from evaluating the derivative function; a
partial trajectory is never returned. -/
theorem C6_theorem (f : S → ℚ → Except EvalErr S) (comb : S → S → ℚ → ℚ → S)
    (y0 : S) (ts : List ℚ) :
    (∀ tr, integrateModel f comb y0 ts = .ok tr → tr.length = ts.length)
    ∧ (∀ e, integrateModel f comb y0 ts = .error e → ∃ s t, f s t = .error e) :=
  integrateModel_spec f comb y0 ts

/-- C6 witness: a successful run has full length, and a failing run
(expressions referencing the unbound `log`) surfaces a derivative
evaluation error. -/
theorem C6_witness :
    ([(EF.fin 1, EF.fin 0), (EF.pinf, EF.pinf)] : List S).length
        = ([0, 1] : List ℚ).length
    ∧ ∃ s t, derivLog s t = .error (.nameError "log") :=
  ⟨(C6_theorem derivDiv unitEuler (EF.fin 1, EF.fin 0) [0, 1]).1
      [(EF.fin 1, EF.fin 0), (EF.pinf, EF.pinf)] rfl,
   (C6_theorem derivLog unitEuler (EF.fin 1, EF.fin 0) [0, 1]).2
      (.nameError "log") rfl⟩

/-- C7: the requested times are `sample_count` uniformly spaced values
from 0 to T (forward) or 0 to -T (backward); the trajectory has one
two-component state per requested time and its first sample equals the
initial condition exactly, in both directions. -/
theorem C7_theorem (step : S → ℚ → ℚ → S) (x0 y0 T : ℚ) (N : ℕ) (h2 : 2 ≤ N) :
    (t_span T N).length = N
    ∧ (linspace 0 (-T) N).length = N
    ∧ (∀ i, i + 1 < N →
        (t_span T N).getD (i + 1) 0 - (t_span T N).getD i 0 = T / ((N : ℚ) - 1))
    ∧ (∀ i, i + 1 < N →
        (linspace 0 (-T) N).getD (i + 1) 0 - (linspace 0 (-T) N).getD i 0
          = (-T) / ((N : ℚ) - 1))
    ∧ (odeintModel step (EF.fin x0, EF.fin y0) (t_span T N)).length = N
    ∧ (odeintModel step (EF.fin x0, EF.fin y0) (linspace 0 (-T) N)).length = N
    ∧ (odeintModel step (EF.fin x0, EF.fin y0) (t_span T N)).getD 0 (EF.nan, EF.nan)
        = (EF.fin x0, EF.fin y0)
    ∧ (odeintModel step (EF.fin x0, EF.fin y0) (linspace 0 (-T) N)).getD 0
        (EF.nan, EF.nan) = (EF.fin x0, EF.fin y0) := by
  have hF : (t_span T N).length = N := linspace_length 0 T N
  have hB : (linspace 0 (-T) N).length = N := linspace_length 0 (-T) N
  have hneF : t_span T N ≠ [] := by
    intro h
    rw [h] at hF
    simp at hF
    omega
  have hneB : linspace 0 (-T) N ≠ [] := by
    intro h
    rw [h] at hB
    simp at hB
    omega
  refine ⟨hF, hB, ?_, ?_, ?_, ?_, ?_, ?_⟩
  · intro i hi
    have h := linspace_spacing 0 T N h2 i hi
    simpa using h
  · intro i hi
    have h := linspace_spacing 0 (-T) N h2 i hi
    simpa using h
  · rw [odeintModel_length, hF]
  · rw [odeintModel_length, hB]
  · exact odeintModel_head step _ _ hneF _
  · exact odeintModel_head step _ _ hneB _

/-- C7 witness: with the code defaults (T = 20, 100 frames, initial
condition (2,0)), the time list has 100 entries, both the forward and
the backward trajectory start exactly at the initial condition, and
consecutive sample times differ by 20/99. -/
theorem C7_witness :
    (t_span 20 100).length = 100
    ∧ (odeintModel holdStep (EF.fin 2, EF.fin 0) (t_span 20 100)).getD 0
        (EF.nan, EF.nan) = (EF.fin 2, EF.fin 0)
    ∧ (odeintModel holdStep (EF.fin 2, EF.fin 0) (linspace 0 (-20) 100)).getD 0
        (EF.nan, EF.nan) = (EF.fin 2, EF.fin 0)
    ∧ (t_span 20 100).getD 1 0 - (t_span 20 100).getD 0 0 = 20 / ((100 : ℚ) - 1) := by
  have h := C7_theorem holdStep 2 0 20 100 (by decide)
  exact ⟨h.1, h.2.2.2.2.2.2.1, h.2.2.2.2.2.2.2, h.2.2.1 0 (by decide)⟩

/-- C8: `system_func` rebinds x and y only on a copy of the scope
dict: after the call, the dict the store held at the original
reference is unchanged (including its grid-valued x and y entries). -/
theorem C8_theorem (fns : MathFns) (eqX eqY : PExpr) (st : Store) (r : ℕ)
    (sx sy : EF) (hr : r < st.length) :
    Store.getRef (system_func fns eqX eqY st r sx sy).2 r = Store.getRef st r := by
  have hrne : st.length ≠ r := by omega
  simp only [system_func, Store.alloc, Store.getRef, Store.setKey]
  rw [getD_set_ne _ _ _ _ hrne, getD_set_ne _ _ _ _ hrne]
  exact getD_append_lt st _ r hr []

/-- C8 witness: a concrete call at the state (1,0) leaves the stored
scope unchanged. -/
theorem C8_witness :
    Store.getRef (system_func fns0 divExprX divExprY store1 0 (EF.fin 1) (EF.fin 0)).2 0
      = Store.getRef store1 0 :=
  C8_theorem fns0 divExprX divExprY store1 0 (EF.fin 1) (EF.fin 0) (by decide)

/-- C9: for every grid specification, the meshgrid coordinate arrays
X and Y have shape (resolutionY, resolutionX); the rows of X repeat the x
axis (constant along columns of equal x), the entries of Y repeat the y
axis value of the row; and both axes are uniformly linearly spaced. -/
theorem C9_theorem (xmin xmax ymin ymax : ℚ) (rx ry : ℕ) :
    (meshgridX (linspace xmin xmax rx) (linspace ymin ymax ry)).length = ry
    ∧ (∀ row ∈ meshgridX (linspace xmin xmax rx) (linspace ymin ymax ry),
        row.length = rx)
    ∧ (meshgridY (linspace xmin xmax rx) (linspace ymin ymax ry)).length = ry
    ∧ (∀ row ∈ meshgridY (linspace xmin xmax rx) (linspace ymin ymax ry),
        row.length = rx)
    ∧ (∀ i j, i < ry → j < rx →
        ((meshgridX (linspace xmin xmax rx) (linspace ymin ymax ry)).getD i []).getD
            j EF.nan = EF.fin ((linspace xmin xmax rx).getD j 0)
        ∧ ((meshgridY (linspace xmin xmax rx) (linspace ymin ymax ry)).getD i []).getD
            j EF.nan = EF.fin ((linspace ymin ymax ry).getD i 0))
    ∧ (2 ≤ rx → ∀ j, j + 1 < rx →
        (linspace xmin xmax rx).getD (j + 1) 0 - (linspace xmin xmax rx).getD j 0
          = (xmax - xmin) / ((rx : ℚ) - 1))
    ∧ (2 ≤ ry → ∀ i, i + 1 < ry →
        (linspace ymin ymax ry).getD (i + 1) 0 - (linspace ymin ymax ry).getD i 0
          = (ymax - ymin) / ((ry : ℚ) - 1)) := by
  refine ⟨?_, ?_, ?_, ?_, ?_, ?_, ?_⟩
  · simp [meshgridX, linspace_length]
  · intro row hrow
    simp only [meshgridX, List.mem_map] at hrow
    obtain ⟨yv, _, hmap⟩ := hrow
    rw [← hmap]
    simp [linspace_length]
  · simp [meshgridY, linspace_length]
  · intro row hrow
    simp only [meshgridY, List.mem_map] at hrow
    obtain ⟨yv, _, hmap⟩ := hrow
    rw [← hmap]
    simp [linspace_length]
  · intro i j hi hj
    have hi' : i < (linspace ymin ymax ry).length := by
      rw [linspace_length]; exact hi
    have hj' : j < (linspace xmin xmax rx).length := by
      rw [linspace_length]; exact hj
    constructor
    · rw [meshgridX_getD _ _ i hi', getD_map_lt _ _ j hj' _ 0]
    · rw [meshgridY_getD _ _ i hi', getD_map_lt _ _ j hj' _ 0]
  · intro h2 j hj
    exact linspace_spacing xmin xmax rx h2 j hj
  · intro h2 i hi
    exact linspace_spacing ymin ymax ry h2 i hi

/-- C9 witness: the grid of the code (20 points per axis on [-6,6]) has 20
rows, its corner entries are the first axis values, and its x spacing
is 12/19. -/
theorem C9_witness :
    gridX.length = 20
    ∧ (gridX.getD 0 []).getD 0 EF.nan = EF.fin (gridXs.getD 0 0)
    ∧ (gridY.getD 0 []).getD 0 EF.nan = EF.fin (gridYs.getD 0 0)
    ∧ gridXs.getD 1 0 - gridXs.getD 0 0 = (6 - (-6)) / ((20 : ℚ) - 1) := by
  have h := C9_theorem (-6) 6 (-6) 6 20 20
  exact ⟨h.1, (h.2.2.2.2.1 0 0 (by decide) (by decide)).1,
    (h.2.2.2.2.1 0 0 (by decide) (by decide)).2,
    h.2.2.2.2.2.1 (by decide) 0 (by decide)⟩

/-- C10: the animation frame list built from a trajectory of N samples
has exactly N frames in sample order, and frame i is labelled with the
stringified integer str(i) and carries the single state at sample
index i. -/
theorem C10_theorem (ts : List ℚ) (sol : List S) (h : ts.length = sol.length) :
    (animation_frames ts sol).length = sol.length
    ∧ ∀ i, i < sol.length →
        (animation_frames ts sol).getD i ⟨"", EF.nan, EF.nan⟩
          = ⟨toString i, (sol.getD i (EF.nan, EF.nan)).1,
             (sol.getD i (EF.nan, EF.nan)).2⟩ := by
  constructor
  · simp [animation_frames, h]
  · intro i hi
    exact animation_frames_getD ts sol i (by rw [h]; exact hi)

/-- C10 witness: a two-sample trajectory yields exactly two frames and
frame 0 carries the state at sample 0 with label str(0). -/
theorem C10_witness :
    (animation_frames [0, 1] [(EF.fin 2, EF.fin 0), (EF.pinf, EF.pinf)]).length = 2
    ∧ (animation_frames [0, 1] [(EF.fin 2, EF.fin 0), (EF.pinf, EF.pinf)]).getD 0
        ⟨"", EF.nan, EF.nan⟩
      = ⟨toString 0,
         (([(EF.fin 2, EF.fin 0), (EF.pinf, EF.pinf)] : List S).getD 0
            (EF.nan, EF.nan)).1,
         (([(EF.fin 2, EF.fin 0), (EF.pinf, EF.pinf)] : List S).getD 0
            (EF.nan, EF.nan)).2⟩ := by
  have h := C10_theorem [0, 1] [(EF.fin 2, EF.fin 0), (EF.pinf, EF.pinf)] (by decide)
  exact ⟨h.1, h.2 0 (by decide)⟩

end PhasePortrait
